import Mathlib

/-!
Verification of the real-time signal-processing and buffering engine of
src/GUI.py (class SegmentViewer), shallowly embedded over exact rationals.
Machine floating-point values are modelled by ℚ, numpy NaN sentinels by
Option.none, and Python dictionaries of per-channel filter state by total
functions into a state record whose Option components model key absence.
-/

namespace GUIVerify

/-- Python int() conversion applied to an exact rational: truncation toward
zero (floor for nonnegative arguments, ceiling for negative ones). -/
def pyInt (q : ℚ) : ℤ := if 0 ≤ q then ⌊q⌋ else ⌈q⌉

/-- One sample step of the direct-form II transposed IIR recurrence that
scipy.signal.lfilter implements: y = b0*x + z0 and each delay cell i becomes
b(i+1)*x - a(i+1)*y + z(i+2), missing cells reading as zero. -/
def lfilterStep (b a z : List ℚ) (x : ℚ) : ℚ × List ℚ :=
  let y := b.headD 0 * x + z.headD 0
  (y, (List.range z.length).map fun i =>
    b.getD (i + 1) 0 * x - a.getD (i + 1) 0 * y + z.getD (i + 1) 0)

/-- Stateful run of the DF2T recurrence over a list of samples, threading the
delay-cell state and returning outputs plus final state. -/
def lfilterGo (b a : List ℚ) : List ℚ → List ℚ → List ℚ × List ℚ
  | z, [] => ([], z)
  | z, x :: xs =>
    let p := lfilterStep b a z x
    let r := lfilterGo b a p.2 xs
    (p.1 :: r.1, r.2)

/-- Model of scipy.signal.lfilter(b, a, xs, zi): coefficients are normalized
by a[0] and the DF2T recurrence is run with initial state zi. -/
def lfilter (b a zi xs : List ℚ) : List ℚ × List ℚ :=
  lfilterGo (b.map (· / a.headD 0)) (a.map (· / a.headD 0)) zi xs

/-- Per-channel persistent filter state of SegmentViewer: the entries of the
dictionaries self.bandpass_zi and self.notch_zi for one channel index, with
none modelling absence of the key. -/
structure ChanState where
  bp : Option (List ℚ)
  nt : Option (List ℚ)
deriving DecidableEq, Repr

/-- Configuration consumed by process_signal: availability flags, the two
coefficient pairs and initial-state templates from
calculate_filter_coefficients, and the magnitude scale. -/
structure FilterConfig where
  scipy_available : Bool
  filter_coeffs_valid : Bool
  bandpass_b : List ℚ
  bandpass_a : List ℚ
  notch_b : List ℚ
  notch_a : List ℚ
  bandpass_zi_template : List ℚ
  notch_zi_template : List ℚ
  magnitude_scale : ℚ
deriving Repr

/-- Body of the try block in process_signal (GUI.py lines 2440-2454) for one
channel: lazily initialize missing states from the first sample scaled into
the templates, then run bandpass and notch with persistent state.  The only
statement in the block that can raise is indexing channel_data[0] on an empty
chunk when a state must be initialized; none models that exception. -/
def tryFilterChannel (cfg : FilterConfig) (st : ChanState) (xs : List ℚ) :
    Option (List ℚ × ChanState) :=
  match xs with
  | [] =>
    match st.bp, st.nt with
    | some zb, some zn => some ([], ⟨some zb, some zn⟩)
    | _, _ => none
  | x0 :: rest =>
    let zb := st.bp.getD (cfg.bandpass_zi_template.map (· * x0))
    let zn := st.nt.getD (cfg.notch_zi_template.map (· * x0))
    let r1 := lfilter cfg.bandpass_b cfg.bandpass_a zb (x0 :: rest)
    let r2 := lfilter cfg.notch_b cfg.notch_a zn r1.1
    some (r2.1, ⟨some r1.2, some r2.2⟩)

/-- One iteration of the channel loop of process_signal (GUI.py lines
2435-2461): attempt the stateful bandpass+notch cascade, fall back to the raw
chunk when the try block raises or filtering is unavailable, then apply the
magnitude scaling magnitude_scale / 100. -/
def process_channel (cfg : FilterConfig) (st : ChanState) (xs : List ℚ) :
    List ℚ × ChanState :=
  if cfg.scipy_available && cfg.filter_coeffs_valid then
    match tryFilterChannel cfg st xs with
    | none => (xs.map (· * (cfg.magnitude_scale / 100)), st)
    | some (ys, st') => (ys.map (· * (cfg.magnitude_scale / 100)), st')
  else
    (xs.map (· * (cfg.magnitude_scale / 100)), st)

/-- process_signal (GUI.py lines 2431-2463): row-wise application of the
channel loop; states is the pair of dictionaries keyed by channel index. -/
def process_signal (cfg : FilterConfig) (states : ℕ → ChanState)
    (rows : List (List ℚ)) : List (List ℚ) × (ℕ → ChanState) :=
  ((List.range rows.length).map fun i =>
      (process_channel cfg (states i) (rows.getD i [])).1,
   fun j =>
     if j < rows.length then (process_channel cfg (states j) (rows.getD j [])).2
     else states j)

/-- Warmup sample count set when streaming visualization starts (GUI.py line
2270): int(sampling_rate * 0.5). -/
def stream_warmup_init (sampling_rate : ℕ) : ℤ :=
  pyInt ((sampling_rate : ℚ) * (5 / 10))

/-- Warmup bookkeeping of update_stream_data (GUI.py lines 2371-2379) for one
incoming processed chunk of n samples: returns how many trailing samples of
the chunk are admitted and the new value of stream_warmup_remaining. -/
def warmupStep (remaining : ℤ) (n : ℕ) : ℕ × ℤ :=
  if 0 < remaining then
    let r := remaining - n
    if 0 ≤ r then (0, r) else ((-r).toNat, 0)
  else (n, remaining)

/-- Samples admitted past the warmup logic over a whole sequence of chunks,
threaded through warmupStep, each chunk contributing only its admitted tail
(the slice processed_data[:, -keep:]). -/
def warmupAdmit : ℤ → List (List ℚ) → List ℚ
  | _, [] => []
  | r, c :: cs =>
    let p := warmupStep r c.length
    c.drop (c.length - p.1) ++ warmupAdmit p.2 cs

/-- Rolling ring-buffer append of update_stream_data (GUI.py lines 2381-2389)
on one channel row, written index-wise after the numpy slice assignments: a
chunk at least as long as the buffer replaces it with the chunk's trailing
slice, otherwise contents shift left by the chunk length and the chunk lands
in the trailing slots.  none models the NaN sentinel. -/
def bufferAppend (buf chunk : List (Option ℚ)) : List (Option ℚ) :=
  if chunk.length ≥ buf.length then
    (List.range buf.length).map fun i =>
      chunk.getD (chunk.length - buf.length + i) none
  else
    (List.range buf.length).map fun i =>
      if i < buf.length - chunk.length then buf.getD (i + chunk.length) none
      else chunk.getD (i - (buf.length - chunk.length)) none

/-- Engine-relevant mutable state of SegmentViewer touched by
toggle_streaming_visualization: the activity flags, the per-channel filter
state dictionaries, the FFT and band-power EMA caches, the band-power axis
ceiling, the stream buffer and the warmup counter. -/
structure EngineState where
  streaming_active : Bool
  file_loaded : Bool
  sampling_rate : ℕ
  bandpass_zi : List (ℕ × List ℚ)
  notch_zi : List (ℕ × List ℚ)
  smoothed_fft : List (ℕ × List ℚ)
  smoothed_band_power : List (ℕ × ℚ)
  band_power_y_max : ℚ
  stream_buffer : Option (List (List (Option ℚ)))
  stream_warmup_remaining : ℤ
deriving DecidableEq, Repr

/-- Stop branch of toggle_streaming_visualization (GUI.py lines 2300-2312):
only the activity and file flags change; every cache keeps its contents. -/
def toggle_streaming_stop (s : EngineState) : EngineState :=
  { s with streaming_active := false, file_loaded := false }

/-- Start branch of toggle_streaming_visualization (GUI.py lines 2237-2274):
sets the activity flags, clears the EMA caches and the axis ceiling, clears
both filter state dictionaries, fills the stream buffer with the NaN
sentinel, and arms the warmup counter. -/
def toggle_streaming_start (s : EngineState) : EngineState :=
  { s with
    streaming_active := true
    file_loaded := true
    smoothed_fft := []
    smoothed_band_power := []
    band_power_y_max := 0
    bandpass_zi := []
    notch_zi := []
    stream_buffer := s.stream_buffer.map fun b => b.map fun row => row.map fun _ => none
    stream_warmup_remaining := stream_warmup_init s.sampling_rate }

/-- Index lookup with nearest-edge clamping, modelling the mode nearest
boundary handling of scipy.ndimage.uniform_filter1d. -/
def nearestGetD (xs : List ℚ) (k : ℤ) : ℚ :=
  xs.getD (max 0 (min k ((xs.length : ℤ) - 1))).toNat 0

/-- Model of scipy.ndimage.uniform_filter1d(xs, size, mode nearest): output i
is the mean over the window of the given size placed with its origin offset
size / 2 to the left, edge values replicated. -/
def uniform_filter1d (xs : List ℚ) (size : ℕ) : List ℚ :=
  (List.range xs.length).map fun i =>
    (((List.range size).map fun j =>
      nearestGetD xs ((i : ℤ) + j - ((size : ℤ) / 2))).sum) / size

/-- Smoothing window in samples (GUI.py line 2470):
max(1, int(smooth_seconds * sampling_rate)). -/
def smoothWin (smooth_seconds : ℚ) (sampling_rate : ℕ) : ℤ :=
  max 1 (pyInt (smooth_seconds * sampling_rate))

/-- smooth_display_data (GUI.py lines 2465-2481) on one channel row; none
models NaN.  NaN positions are zero-filled, the uniform filter runs over the
zero-filled row, and NaN positions are restored in the output. -/
def smooth_display_data (smoothing_enabled scipy_available : Bool)
    (smooth_seconds : ℚ) (sampling_rate : ℕ) (data : List (Option ℚ)) :
    List (Option ℚ) :=
  if !smoothing_enabled then data
  else if smoothWin smooth_seconds sampling_rate ≤ 1 then data
  else if !scipy_available then data
  else if data.all Option.isNone then data
  else
    let clean := data.map fun o => o.getD 0
    let out := uniform_filter1d clean (smoothWin smooth_seconds sampling_rate).toNat
    (List.range data.length).map fun i =>
      if (data.getD i none).isNone then none else some (out.getD i 0)

/-- Option-valued clamped lookup used by the spec-side smoother below. -/
def nearestGetOptD (xs : List (Option ℚ)) (k : ℤ) : Option ℚ :=
  xs.getD (max 0 (min k ((xs.length : ℤ) - 1))).toNat none

/-- Smoother following the words of the spec, for comparison only: sentinel
samples are excluded from the average (they contribute neither to the sum nor
to the divisor), edges are extended, sentinel positions stay sentinel. -/
def smoothExcludingSentinels (size : ℕ) (data : List (Option ℚ)) :
    List (Option ℚ) :=
  (List.range data.length).map fun i =>
    if (data.getD i none).isNone then none
    else
      let vals := ((List.range size).map fun j =>
        nearestGetOptD data ((i : ℤ) + j - ((size : ℤ) / 2))).filterMap id
      some (vals.sum / vals.length)

/-- recalculate_windows (GUI.py line 993):
window_size_samples = int(window_size_sec * sampling_rate). -/
def window_size_samples (window_size_sec : ℚ) (sampling_rate : ℕ) : ℤ :=
  pyInt (window_size_sec * sampling_rate)

/-- recalculate_windows (GUI.py line 994):
stride = int(window_size_samples * 0.8). -/
def stride (window_size_sec : ℚ) (sampling_rate : ℕ) : ℤ :=
  pyInt ((window_size_samples window_size_sec sampling_rate : ℚ) * (8 / 10))

/-- Rounding to the nearest integer, as the round function the spec's window
arithmetic refers to (half rounds up; at the counterexample input the product
is 1.5, where every rounding-to-nearest convention returns 2). -/
def roundNearest (q : ℚ) : ℤ := ⌊q + 1 / 2⌋

/-- Band-power axis ceiling update, shared verbatim by update_band_power
(GUI.py lines 2701-2707) and calculate_band_power_for_file (lines
3035-3040). -/
def band_power_y_max_update (prev current_max : ℚ) : ℚ :=
  if current_max > prev then current_max
  else (995 / 1000) * prev + (5 / 1000) * current_max

/-- Selection loop shared by get_iqr_bounds_for_channels and
get_minmax_bounds_for_channels (GUI.py lines 1071-1081 and 1088-1098): keeps
the first bound pair whose range strictly exceeds the running maximum, which
starts at 0 with no pair selected. -/
def selectLoop (bounds : ℕ → ℚ × ℚ) :
    List ℕ → ℚ → Option (ℚ × ℚ) → Option (ℚ × ℚ)
  | [], _, best => best
  | ch :: rest, maxr, best =>
    let p := bounds ch
    if p.2 - p.1 > maxr then selectLoop bounds rest (p.2 - p.1) (some p)
    else selectLoop bounds rest maxr best

/-- get_iqr_bounds_for_channels (GUI.py lines 1066-1081); the first argument
is the precomputed channel_iqr_bounds mapping. -/
def get_iqr_bounds_for_channels (channel_iqr_bounds : ℕ → ℚ × ℚ)
    (channel_indices : List ℕ) : Option (ℚ × ℚ) :=
  if channel_indices.isEmpty then some (0, 1)
  else selectLoop channel_iqr_bounds channel_indices 0 none

/-- get_minmax_bounds_for_channels (GUI.py lines 1083-1098); the first
argument is the precomputed channel_minmax_bounds mapping. -/
def get_minmax_bounds_for_channels (channel_minmax_bounds : ℕ → ℚ × ℚ)
    (channel_indices : List ℕ) : Option (ℚ × ℚ) :=
  if channel_indices.isEmpty then some (0, 1)
  else selectLoop channel_minmax_bounds channel_indices 0 none

/-- Concrete filter configuration used by witness statements. -/
def cfg0 : FilterConfig :=
  { scipy_available := true
    filter_coeffs_valid := true
    bandpass_b := [1, 0, 0]
    bandpass_a := [1, 0, 0]
    notch_b := [1, 0, 0]
    notch_a := [1, 0, 0]
    bandpass_zi_template := [0, 0]
    notch_zi_template := [0, 0]
    magnitude_scale := 100 }

/-- Concrete state dictionary used by witness statements: channel 0 has both
filter states, every other channel has none. -/
def states0 : ℕ → ChanState :=
  fun j => if j = 0 then ⟨some [0, 0], some [0, 0]⟩ else ⟨none, none⟩

/-- Concrete engine state used by the C4 counterexample: a live session whose
caches all hold residue. -/
def engine0 : EngineState :=
  { streaming_active := true
    file_loaded := true
    sampling_rate := 125
    bandpass_zi := [(0, [1])]
    notch_zi := [(0, [2])]
    smoothed_fft := [(0, [3])]
    smoothed_band_power := [(0, 4)]
    band_power_y_max := 5
    stream_buffer := some [[some 6]]
    stream_warmup_remaining := 0 }

/-- Concrete per-channel bounds used by the C9 counterexample: channel 0 has
range 10, channel 1 lies entirely above it with range 1. -/
def exBounds : ℕ → ℚ × ℚ :=
  fun j => if j = 0 then (0, 10) else (100, 101)

end GUIVerify

namespace GUIVerify

theorem lfilterGo_append (b a : List ℚ) (z : List ℚ) (xs ys : List ℚ) :
    lfilterGo b a z (xs ++ ys) =
      ((lfilterGo b a z xs).1 ++ (lfilterGo b a (lfilterGo b a z xs).2 ys).1,
       (lfilterGo b a (lfilterGo b a z xs).2 ys).2) := by
  induction xs generalizing z with
  | nil => simp [lfilterGo]
  | cons x xs ih => simp [lfilterGo, ih]

theorem lfilter_append (b a z : List ℚ) (xs ys : List ℚ) :
    lfilter b a z (xs ++ ys) =
      ((lfilter b a z xs).1 ++ (lfilter b a (lfilter b a z xs).2 ys).1,
       (lfilter b a (lfilter b a z xs).2 ys).2) := by
  simp [lfilter, lfilterGo_append]

theorem lfilterGo_length (b a : List ℚ) (z : List ℚ) (xs : List ℚ) :
    (lfilterGo b a z xs).1.length = xs.length := by
  induction xs generalizing z with
  | nil => simp [lfilterGo]
  | cons x xs ih => simp [lfilterGo, ih]

theorem lfilter_length (b a z : List ℚ) (xs : List ℚ) :
    (lfilter b a z xs).1.length = xs.length := by
  simp [lfilter, lfilterGo_length]

theorem lfilter_cons_append (b a z : List ℚ) (x : ℚ) (xs ys : List ℚ) :
    lfilter b a z (x :: (xs ++ ys)) =
      ((lfilter b a z (x :: xs)).1 ++
        (lfilter b a (lfilter b a z (x :: xs)).2 ys).1,
       (lfilter b a (lfilter b a z (x :: xs)).2 ys).2) := by
  rw [← List.cons_append, lfilter_append]

theorem process_channel_append (cfg : FilterConfig) (st : ChanState)
    (xs ys : List ℚ) :
    process_channel cfg st (xs ++ ys) =
      ((process_channel cfg st xs).1 ++
        (process_channel cfg (process_channel cfg st xs).2 ys).1,
       (process_channel cfg (process_channel cfg st xs).2 ys).2) := by
  by_cases hflag : cfg.scipy_available && cfg.filter_coeffs_valid
  · obtain ⟨bp, nt⟩ := st
    cases xs with
    | nil =>
      cases bp with
      | none => simp [process_channel, tryFilterChannel, hflag]
      | some zb =>
        cases nt with
        | none => simp [process_channel, tryFilterChannel, hflag]
        | some zn => simp [process_channel, tryFilterChannel, hflag]
    | cons x0 xs0 =>
      cases ys with
      | nil => simp [process_channel, tryFilterChannel, hflag]
      | cons y0 ys0 =>
        simp [process_channel, tryFilterChannel, hflag,
          lfilter_cons_append, lfilter_append]
  · simp [process_channel, hflag, List.map_append]

theorem getD_zipWith_append (rows1 rows2 : List (List ℚ))
    (h : rows1.length = rows2.length) (i : ℕ) :
    (List.zipWith (· ++ ·) rows1 rows2).getD i [] =
      rows1.getD i [] ++ rows2.getD i [] := by
  by_cases hi : i < rows1.length
  · rw [List.getD_eq_getElem _ _ (by simp [List.length_zipWith, ← h, hi]),
      List.getD_eq_getElem _ _ hi, List.getD_eq_getElem _ _ (h ▸ hi),
      List.getElem_zipWith]
  · rw [List.getD_eq_default _ _ (by simp [List.length_zipWith, ← h]; omega),
      List.getD_eq_default _ _ (by omega), List.getD_eq_default _ _ (by omega)]
    rfl

/-- C1 — Filter continuity: for every configuration, every persisted state
dictionary and every pair of consecutive chunks (one list of samples per
channel), processing the concatenated chunk through process_signal equals the
concatenation of processing the first chunk and then the second with the
persisted per-channel filter states, with identical final states.  Over the
exact-rational embedding the outputs agree exactly, which is stronger than
agreement within floating tolerance over the non-transient region. -/
theorem c1_filter_continuity (cfg : FilterConfig) (states : ℕ → ChanState)
    (rows1 rows2 : List (List ℚ)) (h : rows1.length = rows2.length) :
    process_signal cfg states (List.zipWith (· ++ ·) rows1 rows2) =
      (List.zipWith (· ++ ·) (process_signal cfg states rows1).1
        (process_signal cfg (process_signal cfg states rows1).2 rows2).1,
       (process_signal cfg (process_signal cfg states rows1).2 rows2).2) := by
  refine Prod.ext ?_ (funext fun j => ?_)
  · apply List.ext_getElem
    · simp [process_signal, List.length_zipWith, h]
    · intro i h1 h2
      have hi : i < rows1.length := by
        simpa [process_signal, List.length_zipWith, ← h] using h1
      simp only [process_signal, List.getElem_map, List.getElem_range,
        List.getElem_zipWith]
      rw [getD_zipWith_append rows1 rows2 h i, process_channel_append]
      simp [hi]
  · by_cases hj : j < rows1.length
    · simp only [process_signal, List.length_zipWith, ← h, min_self, hj,
        if_true]
      rw [getD_zipWith_append rows1 rows2 h j, process_channel_append]
    · simp [process_signal, List.length_zipWith, ← h, hj]

/-- C1 witness: the continuity theorem applied to a concrete configuration,
state dictionary and chunk pair. -/
theorem c1_filter_continuity_witness :
    process_signal cfg0 states0 (List.zipWith (· ++ ·) [[1]] [[2]]) =
      (List.zipWith (· ++ ·) (process_signal cfg0 states0 [[1]]).1
        (process_signal cfg0 (process_signal cfg0 states0 [[1]]).2 [[2]]).1,
       (process_signal cfg0 (process_signal cfg0 states0 [[1]]).2 [[2]]).2) :=
  c1_filter_continuity cfg0 states0 [[1]] [[2]] rfl

/-- C8 — Band-power axis ceiling: the update rule shared by update_band_power
and calculate_band_power_for_file takes the observed maximum outright when it
exceeds the tracked ceiling and otherwise blends 0.995 of the previous
ceiling with 0.005 of the observed maximum; hence the new ceiling is at least
the observed maximum and, for nonnegative observations, at least 0.995 of
the previous ceiling. -/
theorem c8_band_power_ceiling (prev current_max : ℚ) (h : 0 ≤ current_max) :
    (prev < current_max →
      band_power_y_max_update prev current_max = current_max) ∧
    (current_max ≤ prev →
      band_power_y_max_update prev current_max =
        (995 / 1000) * prev + (5 / 1000) * current_max) ∧
    current_max ≤ band_power_y_max_update prev current_max ∧
    (995 / 1000) * prev ≤ band_power_y_max_update prev current_max := by
  unfold band_power_y_max_update
  by_cases hc : current_max > prev
  · rw [if_pos hc]
    exact ⟨fun _ => rfl, fun hle => absurd hc (not_lt.2 hle), le_refl _,
      by linarith⟩
  · rw [if_neg hc]
    push_neg at hc
    exact ⟨fun hlt => absurd hlt (not_lt.2 hc), fun _ => rfl, by linarith,
      by linarith⟩

/-- C8 witness: the ceiling update evaluated at a previous ceiling of 1 and
an observed maximum of 2. -/
theorem c8_band_power_ceiling_witness :
    ((1 : ℚ) < 2 → band_power_y_max_update 1 2 = 2) ∧
    ((2 : ℚ) ≤ 1 → band_power_y_max_update 1 2 =
      (995 / 1000) * 1 + (5 / 1000) * 2) ∧
    (2 : ℚ) ≤ band_power_y_max_update 1 2 ∧
    (995 / 1000) * (1 : ℚ) ≤ band_power_y_max_update 1 2 :=
  c8_band_power_ceiling 1 2 (by norm_num)

/-- C7 counterexample: at window_size_sec = 0.3 and sampling_rate = 5 the
product is exactly 1.5 (also in IEEE doubles); the code truncates it to 1
while the claimed round gives 2, and the resulting stride is 0, violating the
claimed minimum of 1. -/
theorem c7_counterexample :
    window_size_samples (3 / 10) 5 = 1 ∧
    roundNearest ((3 / 10) * (5 : ℕ)) = 2 ∧
    stride (3 / 10) 5 = 0 ∧
    ¬ (1 ≤ stride (3 / 10) 5) := by
  have h1 : window_size_samples (3 / 10) 5 = 1 := by
    unfold window_size_samples pyInt
    rw [if_pos (by norm_num)]
    norm_num
  have h3 : stride (3 / 10) 5 = 0 := by
    unfold stride pyInt
    rw [h1, if_pos (by norm_num)]
    norm_num
  refine ⟨h1, ?_, h3, by rw [h3]; norm_num⟩
  unfold roundNearest
  norm_num

/-- C7 amended — Window segmentation arithmetic: for nonnegative window
length the code computes window_length_samples as the floor (Python int
truncation) of window_length_seconds × sampling_rate, the stride as the floor
of 0.8 × window_length_samples with no minimum enforced, and the stride
reaches 1 exactly when window_length_samples is at least 2. -/
theorem c7_amended (sec : ℚ) (rate : ℕ) (h : 0 ≤ sec) :
    window_size_samples sec rate = ⌊sec * rate⌋ ∧
    stride sec rate = ⌊(window_size_samples sec rate : ℚ) * (8 / 10)⌋ ∧
    (1 ≤ stride sec rate ↔ 2 ≤ window_size_samples sec rate) := by
  have h0 : (0 : ℚ) ≤ sec * rate := mul_nonneg h (by positivity)
  have h1 : window_size_samples sec rate = ⌊sec * rate⌋ := by
    unfold window_size_samples pyInt
    rw [if_pos h0]
  have hw : 0 ≤ window_size_samples sec rate := h1 ▸ Int.floor_nonneg.2 h0
  have h2' : (0 : ℚ) ≤ (window_size_samples sec rate : ℚ) * (8 / 10) :=
    mul_nonneg (by exact_mod_cast hw) (by norm_num)
  have h2 : stride sec rate =
      ⌊(window_size_samples sec rate : ℚ) * (8 / 10)⌋ := by
    unfold stride pyInt
    rw [if_pos h2']
  refine ⟨h1, h2, ?_⟩
  rw [h2]
  constructor
  · intro hs
    have hq : ((1 : ℤ) : ℚ) ≤ (window_size_samples sec rate : ℚ) * (8 / 10) :=
      Int.le_floor.1 hs
    have hgt : (1 : ℚ) < (window_size_samples sec rate : ℚ) := by
      push_cast at hq
      linarith
    have : (1 : ℤ) < window_size_samples sec rate := by exact_mod_cast hgt
    omega
  · intro hw2
    apply Int.le_floor.2
    have : (2 : ℚ) ≤ (window_size_samples sec rate : ℚ) := by exact_mod_cast hw2
    push_cast
    linarith

/-- C7 amended witness: the amended arithmetic at a 2 second window and a
125 Hz sampling rate. -/
theorem c7_amended_witness :
    window_size_samples 2 125 = ⌊(2 : ℚ) * (125 : ℕ)⌋ ∧
    stride 2 125 = ⌊(window_size_samples 2 125 : ℚ) * (8 / 10)⌋ ∧
    (1 ≤ stride 2 125 ↔ 2 ≤ window_size_samples 2 125) :=
  c7_amended 2 125 (by norm_num)

/-- C4 counterexample: stopping a live session with residue in every cache
flips the activity flag but leaves the filter states, the EMA caches, the
axis ceiling and the buffer contents untouched, so residue does remain in
engine state after the stop operation. -/
theorem c4_counterexample :
    (toggle_streaming_stop engine0).streaming_active = false ∧
    (toggle_streaming_stop engine0).bandpass_zi = [(0, [1])] ∧
    (toggle_streaming_stop engine0).bandpass_zi ≠ [] ∧
    (toggle_streaming_stop engine0).notch_zi ≠ [] ∧
    (toggle_streaming_stop engine0).smoothed_fft ≠ [] ∧
    (toggle_streaming_stop engine0).smoothed_band_power ≠ [] ∧
    (toggle_streaming_stop engine0).band_power_y_max = 5 ∧
    (toggle_streaming_stop engine0).stream_buffer = some [[some 6]] := by
  refine ⟨rfl, rfl, ?_, ?_, ?_, ?_, rfl, rfl⟩ <;>
    simp [toggle_streaming_stop, engine0]

/-- C4 amended — Session cancellation: stopping a live session only flips
streaming_active and file_loaded to false, leaving all transient caches
untouched; those caches (filter states, FFT and band-power EMA caches, axis
ceiling, buffer contents) are instead cleared by the start branch when the
next session begins, before any new data arrives. -/
theorem c4_amended (s : EngineState) :
    (toggle_streaming_stop s).streaming_active = false ∧
    (toggle_streaming_stop s).file_loaded = false ∧
    (toggle_streaming_stop s).bandpass_zi = s.bandpass_zi ∧
    (toggle_streaming_stop s).notch_zi = s.notch_zi ∧
    (toggle_streaming_stop s).smoothed_fft = s.smoothed_fft ∧
    (toggle_streaming_stop s).smoothed_band_power = s.smoothed_band_power ∧
    (toggle_streaming_stop s).band_power_y_max = s.band_power_y_max ∧
    (toggle_streaming_stop s).stream_buffer = s.stream_buffer ∧
    (toggle_streaming_stop s).stream_warmup_remaining =
      s.stream_warmup_remaining ∧
    (toggle_streaming_start s).bandpass_zi = [] ∧
    (toggle_streaming_start s).notch_zi = [] ∧
    (toggle_streaming_start s).smoothed_fft = [] ∧
    (toggle_streaming_start s).smoothed_band_power = [] ∧
    (toggle_streaming_start s).band_power_y_max = 0 ∧
    (toggle_streaming_start s).stream_buffer =
      s.stream_buffer.map (fun b => b.map fun row => row.map fun _ => none) ∧
    (toggle_streaming_start s).stream_warmup_remaining =
      stream_warmup_init s.sampling_rate :=
  ⟨rfl, rfl, rfl, rfl, rfl, rfl, rfl, rfl, rfl, rfl, rfl, rfl, rfl, rfl, rfl,
    rfl⟩

theorem warmupAdmit_cons (r : ℤ) (c : List ℚ) (cs : List (List ℚ)) :
    warmupAdmit r (c :: cs) =
      c.drop (c.length - (warmupStep r c.length).1) ++
        warmupAdmit (warmupStep r c.length).2 cs := rfl

theorem warmupAdmit_drop (chunks : List (List ℚ)) :
    ∀ r : ℤ, 0 ≤ r → warmupAdmit r chunks = chunks.flatten.drop r.toNat := by
  induction chunks with
  | nil => intro r hr; simp [warmupAdmit]
  | cons c cs ih =>
    intro r hr
    rw [warmupAdmit_cons, List.flatten_cons, List.drop_append_eq_append_drop]
    by_cases hpos : 0 < r
    · by_cases hge : 0 ≤ r - (c.length : ℤ)
      · have hstep : warmupStep r c.length = (0, r - c.length) := by
          unfold warmupStep
          rw [if_pos hpos, if_pos hge]
        rw [hstep]
        dsimp only
        rw [Nat.sub_zero, List.drop_length, List.nil_append, ih _ (by omega)]
        have h1 : List.drop r.toNat c = [] := List.drop_eq_nil_of_le (by omega)
        rw [h1, List.nil_append]
        congr 1
        omega
      · have hstep : warmupStep r c.length = ((-(r - c.length)).toNat, 0) := by
          unfold warmupStep
          rw [if_pos hpos, if_neg hge]
        rw [hstep]
        dsimp only
        rw [ih 0 le_rfl, Int.toNat_zero, List.drop_zero]
        have harith : c.length - (-(r - (c.length : ℤ))).toNat = r.toNat := by
          omega
        have hz : r.toNat - c.length = 0 := by omega
        rw [harith, hz, List.drop_zero]
    · have hz : r = 0 := by omega
      subst hz
      have hstep : warmupStep 0 c.length = (c.length, 0) := by
        unfold warmupStep
        rw [if_neg (by omega)]
      rw [hstep]
      dsimp only
      rw [ih 0 le_rfl]
      simp

/-- C2 — Warmup discard: the warmup counter armed at session start equals
int(0.5 × sampling_rate) = sampling_rate / 2 (integer division), and for
every sequence of incoming processed chunks the samples admitted into the
ring buffer are exactly the concatenated stream with its first
sampling_rate / 2 samples removed: chunks before the boundary are discarded
whole, a chunk straddling the boundary contributes only its post-warmup
tail, and every sample after the boundary is admitted. -/
theorem c2_warmup_discard (rate : ℕ) (chunks : List (List ℚ)) :
    stream_warmup_init rate = ((rate / 2 : ℕ) : ℤ) ∧
    warmupAdmit (stream_warmup_init rate) chunks =
      chunks.flatten.drop (rate / 2) := by
  have h1 : stream_warmup_init rate = ((rate / 2 : ℕ) : ℤ) := by
    unfold stream_warmup_init pyInt
    rw [if_pos (by positivity)]
    have hh : (rate : ℚ) * (5 / 10) = (rate : ℕ) / ((2 : ℕ) : ℚ) := by
      push_cast
      ring
    rw [hh, Rat.floor_natCast_div_natCast]
    omega
  refine ⟨h1, ?_⟩
  rw [h1, warmupAdmit_drop chunks _ (by positivity), Int.toNat_natCast]

/-- C3 — Ring buffer append: a chunk at least as long as the buffer replaces
the contents with the chunk's trailing capacity samples; a shorter chunk
shifts existing contents left by the chunk length and fills the trailing
slots; the capacity never changes; and appending exactly capacity fresh
(sentinel-free) samples yields the chunk itself, with no sentinel left in
the buffer. -/
theorem c3_ring_buffer_append (buf chunk : List (Option ℚ)) :
    (buf.length ≤ chunk.length →
      bufferAppend buf chunk = chunk.drop (chunk.length - buf.length)) ∧
    (chunk.length < buf.length →
      bufferAppend buf chunk = buf.drop chunk.length ++ chunk) ∧
    (bufferAppend buf chunk).length = buf.length ∧
    (chunk.length = buf.length → bufferAppend buf chunk = chunk) ∧
    (chunk.length = buf.length → (∀ x ∈ chunk, x.isSome) →
      ∀ x ∈ bufferAppend buf chunk, x.isSome) := by
  have hA : buf.length ≤ chunk.length →
      bufferAppend buf chunk = chunk.drop (chunk.length - buf.length) := by
    intro hle
    rw [bufferAppend, if_pos hle]
    apply List.ext_getElem
    · simp
      omega
    · intro i h1 h2
      have hi : i < buf.length := by simpa using h1
      simp only [List.getElem_map, List.getElem_range, List.getElem_drop]
      rw [List.getD_eq_getElem _ _ (by omega)]
  have hB : chunk.length < buf.length →
      bufferAppend buf chunk = buf.drop chunk.length ++ chunk := by
    intro hlt
    rw [bufferAppend, if_neg (by omega)]
    apply List.ext_getElem
    · simp
      omega
    · intro i h1 h2
      have hi : i < buf.length := by simpa using h1
      simp only [List.getElem_map, List.getElem_range]
      by_cases hcase : i < buf.length - chunk.length
      · rw [if_pos hcase, Nat.add_comm i chunk.length,
          List.getD_eq_getElem _ _ (by omega),
          List.getElem_append_left (by simp [List.length_drop]; omega),
          List.getElem_drop]
      · rw [if_neg hcase, List.getD_eq_getElem _ _ (by omega),
          List.getElem_append_right (by simp [List.length_drop]; omega)]
        congr 1
        simp [List.length_drop]
  have hC : (bufferAppend buf chunk).length = buf.length := by
    rw [bufferAppend]
    split_ifs <;> simp
  have hD : chunk.length = buf.length → bufferAppend buf chunk = chunk := by
    intro he
    rw [hA he.ge]
    have : chunk.length - buf.length = 0 := by omega
    rw [this, List.drop_zero]
  refine ⟨hA, hB, hC, hD, ?_⟩
  intro he hsome x hx
  rw [hD he] at hx
  exact hsome x hx

/-- C3 witness: appending a full-capacity fresh chunk to a buffer holding a
sentinel yields exactly the chunk, sentinel-free. -/
theorem c3_ring_buffer_append_witness :
    bufferAppend [none, some 1] [some 2, some 3] = [some 2, some 3] ∧
    ∀ x ∈ bufferAppend [none, some 1] [some 2, some 3], x.isSome :=
  ⟨(c3_ring_buffer_append [none, some 1] [some 2, some 3]).2.2.2.1 rfl,
   (c3_ring_buffer_append [none, some 1] [some 2, some 3]).2.2.2.2 rfl
     (by simp)⟩

theorem selectLoop_of_forall_le (f : ℕ → ℚ × ℚ) (idxs : List ℕ) :
    ∀ (maxr : ℚ) (best : Option (ℚ × ℚ)),
      (∀ j ∈ idxs, (f j).2 - (f j).1 ≤ maxr) →
      selectLoop f idxs maxr best = best := by
  induction idxs with
  | nil => intro maxr best h; rfl
  | cons ch rest ih =>
    intro maxr best h
    have hch := h ch (List.mem_cons_self ch rest)
    simp only [selectLoop]
    rw [if_neg (not_lt.2 hch)]
    exact ih maxr best fun j hj => h j (List.mem_cons_of_mem ch hj)

theorem selectLoop_max (f : ℕ → ℚ × ℚ) (idxs : List ℕ) :
    ∀ (maxr : ℚ) (best : Option (ℚ × ℚ)),
      (∃ j ∈ idxs, maxr < (f j).2 - (f j).1) →
      ∃ i ∈ idxs, selectLoop f idxs maxr best = some (f i) ∧
        maxr < (f i).2 - (f i).1 ∧
        ∀ j ∈ idxs, (f j).2 - (f j).1 ≤ (f i).2 - (f i).1 := by
  induction idxs with
  | nil =>
    intro maxr best h
    obtain ⟨j, hj, _⟩ := h
    exact absurd hj (List.not_mem_nil j)
  | cons ch rest ih =>
    intro maxr best h
    by_cases hch : maxr < (f ch).2 - (f ch).1
    · by_cases hrest : ∃ j ∈ rest, (f ch).2 - (f ch).1 < (f j).2 - (f j).1
      · obtain ⟨i, hi, heq, hlt, hmax⟩ :=
          ih ((f ch).2 - (f ch).1) (some (f ch)) hrest
        refine ⟨i, List.mem_cons_of_mem ch hi, ?_, lt_trans hch hlt, ?_⟩
        · simp only [selectLoop]
          rw [if_pos hch]
          exact heq
        · intro j hj
          rcases List.mem_cons.1 hj with hj1 | hj2
          · rw [hj1]; exact le_of_lt hlt
          · exact hmax j hj2
      · push_neg at hrest
        refine ⟨ch, List.mem_cons_self ch rest, ?_, hch, ?_⟩
        · simp only [selectLoop]
          rw [if_pos hch]
          exact selectLoop_of_forall_le f rest _ _ hrest
        · intro j hj
          rcases List.mem_cons.1 hj with hj1 | hj2
          · rw [hj1]
          · exact hrest j hj2
    · have hrest : ∃ j ∈ rest, maxr < (f j).2 - (f j).1 := by
        obtain ⟨j, hj, hjlt⟩ := h
        rcases List.mem_cons.1 hj with hj1 | hj2
        · rw [hj1] at hjlt; exact absurd hjlt hch
        · exact ⟨j, hj2, hjlt⟩
      obtain ⟨i, hi, heq, hlt, hmax⟩ := ih maxr best hrest
      refine ⟨i, List.mem_cons_of_mem ch hi, ?_, hlt, ?_⟩
      · simp only [selectLoop]
        rw [if_neg hch]
        exact heq
      · intro j hj
        rcases List.mem_cons.1 hj with hj1 | hj2
        · push_neg at hch
          rw [hj1]
          exact le_trans hch (le_of_lt hlt)
        · exact hmax j hj2

/-- C9 counterexample: for the single requested channel 0 whose bounds are
(5, 5) (range 0) the IQR selection returns no pair at all rather than that
channel's pair, because the running maximum starts at 0 and only strictly
larger ranges are selected; and for two requested channels the min/max
selection returns the widest-range channel's pair (0, 10), which does not
cover channel 1's bound pair (100, 101). -/
theorem c9_counterexample :
    get_iqr_bounds_for_channels (fun _ => (5, 5)) [0] = none ∧
    get_minmax_bounds_for_channels exBounds [0, 1] = some (0, 10) ∧
    ¬ ((101 : ℚ) ≤ 10) := by
  refine ⟨?_, ?_, by norm_num⟩
  · rw [get_iqr_bounds_for_channels, if_neg (by simp)]
    simp only [selectLoop]
    rw [if_neg (by norm_num)]
  · rw [get_minmax_bounds_for_channels, if_neg (by simp)]
    simp only [selectLoop, exBounds]
    norm_num

/-- C9 amended — Bounds selection: for every non-empty set of requested
channel indices among which at least one channel has strictly positive range,
both selection functions return the bound pair of a requested channel whose
range is maximal among the requested channels (when every requested range is
nonpositive they return no pair, and the returned pair need not cover the
bounds of the other requested channels). -/
theorem c9_amended (iqrB mmB : ℕ → ℚ × ℚ) (idxs : List ℕ)
    (h1 : ∃ i ∈ idxs, 0 < (iqrB i).2 - (iqrB i).1)
    (h2 : ∃ i ∈ idxs, 0 < (mmB i).2 - (mmB i).1) :
    (∃ i ∈ idxs, get_iqr_bounds_for_channels iqrB idxs = some (iqrB i) ∧
      ∀ j ∈ idxs, (iqrB j).2 - (iqrB j).1 ≤ (iqrB i).2 - (iqrB i).1) ∧
    (∃ i ∈ idxs, get_minmax_bounds_for_channels mmB idxs = some (mmB i) ∧
      ∀ j ∈ idxs, (mmB j).2 - (mmB j).1 ≤ (mmB i).2 - (mmB i).1) := by
  have hne : ¬ idxs.isEmpty = true := by
    obtain ⟨i, hi, _⟩ := h1
    cases idxs with
    | nil => exact absurd hi (List.not_mem_nil i)
    | cons a l => simp
  constructor
  · obtain ⟨i, hi, heq, _, hmax⟩ := selectLoop_max iqrB idxs 0 none h1
    refine ⟨i, hi, ?_, hmax⟩
    rw [get_iqr_bounds_for_channels, if_neg hne]
    exact heq
  · obtain ⟨i, hi, heq, _, hmax⟩ := selectLoop_max mmB idxs 0 none h2
    refine ⟨i, hi, ?_, hmax⟩
    rw [get_minmax_bounds_for_channels, if_neg hne]
    exact heq

/-- C9 amended witness: the amended selection applied to the concrete bounds
map with channels 0 and 1 requested. -/
theorem c9_amended_witness :
    (∃ i ∈ [0, 1], get_iqr_bounds_for_channels exBounds [0, 1] =
        some (exBounds i) ∧
      ∀ j ∈ [0, 1], (exBounds j).2 - (exBounds j).1 ≤
        (exBounds i).2 - (exBounds i).1) ∧
    (∃ i ∈ [0, 1], get_minmax_bounds_for_channels exBounds [0, 1] =
        some (exBounds i) ∧
      ∀ j ∈ [0, 1], (exBounds j).2 - (exBounds j).1 ≤
        (exBounds i).2 - (exBounds i).1) :=
  c9_amended exBounds exBounds [0, 1]
    ⟨0, by simp, by norm_num [exBounds]⟩
    ⟨0, by simp, by norm_num [exBounds]⟩

theorem tryFilterChannel_length (cfg : FilterConfig) (st : ChanState)
    (xs : List ℚ) (p : List ℚ × ChanState)
    (h : tryFilterChannel cfg st xs = some p) : p.1.length = xs.length := by
  cases xs with
  | nil =>
    obtain ⟨bp, nt⟩ := st
    cases bp <;> cases nt <;> simp_all [tryFilterChannel]
    rw [← h]
  | cons x0 rest =>
    simp only [tryFilterChannel, Option.some_inj] at h
    rw [← h]
    simp [lfilter_length]

theorem process_channel_length (cfg : FilterConfig) (st : ChanState)
    (xs : List ℚ) : (process_channel cfg st xs).1.length = xs.length := by
  rw [process_channel]
  split_ifs with hflag
  · cases htf : tryFilterChannel cfg st xs with
    | none => simp
    | some p => simp [tryFilterChannel_length cfg st xs p htf]
  · simp

theorem process_channel_scaled (cfg : FilterConfig) (st : ChanState)
    (xs : List ℚ) : ∃ pre : List ℚ,
      (process_channel cfg st xs).1 =
        pre.map (· * (cfg.magnitude_scale / 100)) := by
  rw [process_channel]
  split_ifs with hflag
  · cases htf : tryFilterChannel cfg st xs with
    | none => exact ⟨xs, by simp⟩
    | some p => exact ⟨p.1, by simp⟩
  · exact ⟨xs, by simp⟩

theorem process_signal_getD (cfg : FilterConfig) (states : ℕ → ChanState)
    (rows : List (List ℚ)) (j : ℕ) (hj : j < rows.length) :
    (process_signal cfg states rows).1.getD j [] =
      (process_channel cfg (states j) (rows.getD j [])).1 := by
  rw [process_signal]
  dsimp only
  rw [List.getD_eq_getElem _ _ (by simpa using hj)]
  simp

/-- C10 — Totality and shape preservation of process_signal: the embedding
models the catch-all exception handler of the source, making process_signal
a total function; for every configuration (scipy available or not, valid or
invalid coefficients), every state dictionary and every input matrix
(including zero channels or zero samples) the output has exactly one row per
input row, each output row has the length of its input row, and each output
row is some intermediate row scaled elementwise by magnitude_scale / 100. -/
theorem c10_process_signal_total_shape (cfg : FilterConfig)
    (states : ℕ → ChanState) (rows : List (List ℚ)) :
    (process_signal cfg states rows).1.length = rows.length ∧
    ∀ i, i < rows.length →
      ((process_signal cfg states rows).1.getD i []).length =
        (rows.getD i []).length ∧
      ∃ pre : List ℚ, (process_signal cfg states rows).1.getD i [] =
        pre.map (· * (cfg.magnitude_scale / 100)) := by
  refine ⟨by simp [process_signal], ?_⟩
  intro i hi
  rw [process_signal_getD cfg states rows i hi]
  exact ⟨process_channel_length cfg (states i) (rows.getD i []),
    process_channel_scaled cfg (states i) (rows.getD i [])⟩

/-- C10 witness: shape preservation and scaling evaluated on a concrete
two-sample single-channel matrix. -/
theorem c10_process_signal_total_shape_witness :
    (process_signal cfg0 states0 [[1, 2]]).1.length =
      ([[1, 2]] : List (List ℚ)).length ∧
    ((process_signal cfg0 states0 [[1, 2]]).1.getD 0 []).length =
      (([[1, 2]] : List (List ℚ)).getD 0 []).length ∧
    ∃ pre : List ℚ, (process_signal cfg0 states0 [[1, 2]]).1.getD 0 [] =
      pre.map (· * (cfg0.magnitude_scale / 100)) := by
  have h := c10_process_signal_total_shape cfg0 states0 [[1, 2]]
  exact ⟨h.1, (h.2 0 (by norm_num)).1, (h.2 0 (by norm_num)).2⟩

/-- C6 — Filter failure isolation: when the try block of process_signal
raises for channel i (in the source the reachable failure is indexing an
empty chunk while a filter state is uninitialized), the function does not
propagate the exception, channel i's output is its unfiltered input scaled
by magnitude_scale / 100 with its state left unchanged, and every channel's
output is a function of that channel's own row and state alone, so one
channel's failure cannot change any other channel's output. -/
theorem c6_filter_failure_isolation (cfg : FilterConfig)
    (states : ℕ → ChanState) (rows : List (List ℚ)) (i : ℕ)
    (hv : (cfg.scipy_available && cfg.filter_coeffs_valid) = true)
    (hi : i < rows.length)
    (hf : tryFilterChannel cfg (states i) (rows.getD i []) = none) :
    (process_signal cfg states rows).1.getD i [] =
      (rows.getD i []).map (· * (cfg.magnitude_scale / 100)) ∧
    (process_signal cfg states rows).2 i = states i ∧
    ∀ j, j < rows.length →
      (process_signal cfg states rows).1.getD j [] =
        (process_channel cfg (states j) (rows.getD j [])).1 := by
  refine ⟨?_, ?_, fun j hj => process_signal_getD cfg states rows j hj⟩
  · rw [process_signal_getD cfg states rows i hi, process_channel,
      if_pos hv, hf]
  · rw [process_signal]
    dsimp only
    rw [if_pos hi, process_channel, if_pos hv, hf]

/-- C6 witness: an empty chunk with channel 1's filter states missing makes
the try block raise for channel 1 while channel 0 (whose states exist)
filters normally; the theorem applies with every hypothesis discharged at
this input. -/
theorem c6_filter_failure_isolation_witness :
    (process_signal cfg0 states0 [[], []]).1.getD 1 [] =
      (([[], []] : List (List ℚ)).getD 1 []).map
        (· * (cfg0.magnitude_scale / 100)) ∧
    (process_signal cfg0 states0 [[], []]).2 1 = states0 1 ∧
    ∀ j, j < ([[], []] : List (List ℚ)).length →
      (process_signal cfg0 states0 [[], []]).1.getD j [] =
        (process_channel cfg0 (states0 j)
          (([[], []] : List (List ℚ)).getD j [])).1 :=
  c6_filter_failure_isolation cfg0 states0 [[], []] 1 rfl (by norm_num) rfl

/-- C5 counterexample: on the row [NaN, 4, 4] with a 3-sample window the
implementation zero-fills the sentinel, so position 1 averages (0+4+4)/3 =
8/3, whereas excluding the sentinel from the average (the spec-side smoother)
gives (4+4)/2 = 4; the sentinel therefore does contribute to the averaged
value, contradicting the claim. -/
theorem c5_counterexample :
    smooth_display_data true true 3 1 [none, some 4, some 4] =
      [none, some (8 / 3), some 4] ∧
    smoothExcludingSentinels 3 [none, some 4, some 4] =
      [none, some 4, some 4] ∧
    (8 / 3 : ℚ) ≠ 4 := by
  have h3 : (3 : ℤ).toNat = 3 := rfl
  have h2 : (2 : ℤ).toNat = 2 := rfl
  have hwin : smoothWin 3 1 = 3 := by
    unfold smoothWin pyInt
    rw [if_pos (by norm_num)]
    norm_num
  refine ⟨?_, ?_, by norm_num⟩
  · rw [smooth_display_data]
    norm_num [hwin, uniform_filter1d, nearestGetD, List.range_succ, h3, h2]
    exact ⟨fun h => absurd h (Option.some_ne_none _),
      fun h => absurd h (Option.some_ne_none _)⟩
  · norm_num [smoothExcludingSentinels, nearestGetOptD, List.range_succ, h3,
      h2, List.filterMap_cons]
    exact fun h => absurd h (Option.some_ne_none _)

/-- C5 amended — Display smoothing sentinel handling: if smoothing is
disabled, or the whole row is sentinel, the input is returned unchanged;
otherwise sentinel positions remain sentinel, non-sentinel positions remain
non-sentinel, the length is preserved, and each non-sentinel output value is
the full-window mean (edges extended) of the row with sentinel samples
replaced by zero — sentinels contribute zero to the sum while still counting
in the divisor, rather than being excluded from the average. -/
theorem c5_amended (en sc : Bool) (ss : ℚ) (rate : ℕ)
    (data : List (Option ℚ)) :
    (en = false → smooth_display_data en sc ss rate data = data) ∧
    (data.all Option.isNone = true →
      smooth_display_data en sc ss rate data = data) ∧
    (smooth_display_data en sc ss rate data).length = data.length ∧
    (∀ i, ((smooth_display_data en sc ss rate data).getD i none).isNone =
      (data.getD i none).isNone) ∧
    (en = true → sc = true → 1 < smoothWin ss rate →
      data.all Option.isNone = false →
      ∀ i v, data.getD i none = some v →
        (smooth_display_data en sc ss rate data).getD i none =
          some ((uniform_filter1d (data.map fun o => o.getD 0)
            (smoothWin ss rate).toNat).getD i 0)) := by
  refine ⟨?_, ?_, ?_, ?_, ?_⟩
  · intro h
    simp [smooth_display_data, h]
  · intro h
    simp [smooth_display_data, h]
  · rw [smooth_display_data]
    split_ifs <;> simp
  · intro i
    rw [smooth_display_data]
    split_ifs
    · rfl
    · rfl
    · rfl
    · rfl
    · by_cases hi : i < data.length
      · rw [List.getD_eq_getElem _ _ (by simpa using hi)]
        simp only [List.getElem_map, List.getElem_range]
        cases hc : (data.getD i none).isNone <;> simp [hc]
      · rw [List.getD_eq_default _ _ (by simp; omega),
          List.getD_eq_default _ _ (by omega)]
  · intro hen hsc hwin hall i v hiv
    subst hen
    subst hsc
    have hi : i < data.length := by
      by_contra hcon
      rw [List.getD_eq_default _ _ (by omega)] at hiv
      exact Option.noConfusion hiv
    rw [smooth_display_data]
    rw [if_neg (by simp), if_neg (by omega), if_neg (by simp),
      if_neg (by simp [hall])]
    rw [List.getD_eq_getElem _ _ (by simpa using hi)]
    simp only [List.getElem_map, List.getElem_range]
    rw [hiv]
    simp

/-- C5 amended witness: the amended characterization applied to the row
[NaN, 4, 4] with a 3-sample window, evaluated at the non-sentinel position
1. -/
theorem c5_amended_witness :
    ((smooth_display_data true true 3 1 [none, some 4, some 4]).getD 1
        none).isNone =
      (([none, some 4, some 4] : List (Option ℚ)).getD 1 none).isNone ∧
    (smooth_display_data true true 3 1 [none, some 4, some 4]).getD 1 none =
      some ((uniform_filter1d
        (([none, some 4, some 4] : List (Option ℚ)).map fun o => o.getD 0)
        (smoothWin 3 1).toNat).getD 1 0) := by
  have h := c5_amended true true 3 1 [none, some 4, some 4]
  refine ⟨h.2.2.2.1 1, h.2.2.2.2 rfl rfl ?_ ?_ 1 4 rfl⟩
  · unfold smoothWin pyInt
    rw [if_pos (by norm_num)]
    norm_num
  · simp

end GUIVerify
